import Mathlib

/-!
# include/sys/stat_checked.h

A verification development for the header `include/sys/stat_checked.h`: the
bounds-safe interfaces for the functions of POSIX `sys/stat.h`.

The header is a sequence of preprocessor lines.  It is embedded as the list
`stat_checked_h` of its lines (lines 8 to 45 of the file, one constructor per
directive or declaration), and run by a small conditional-inclusion
interpreter (`step`, `run`, `include_file`) that keeps the table of defined
names and the stack of open `#if` groups, and collects the lines that survive
conditional inclusion.
-/

namespace StatChecked

/-! ## Data model -/

/-- The names tested by `defined`, `#ifdef` and `#ifndef` in the header. -/
inductive MacroId
  | __has_include_next
  | __checkedc
  | __STAT_CHECKED_H
  deriving DecidableEq, Repr

/-- The headers named in the file: `<sys/stat.h>`. -/
inductive Header
  | sys_stat_h
  deriving DecidableEq, Repr

/-- The argument of `#pragma CHECKED_SCOPE`. -/
inductive ScopeOp
  | push
  | pop
  | on
  | off
  deriving DecidableEq, Repr

/-- The type specifiers that occur in the declarations. -/
inductive BaseTy
  | int
  | char
  | mode_t
  | struct_stat
  deriving DecidableEq, Repr

/-- A declared parameter type: `[const] base [* [restrict]]`. -/
structure CTy where
  is_const : Bool
  base : BaseTy
  is_pointer : Bool
  is_restrict : Bool
  deriving DecidableEq, Repr

/-- The checked pointer constructors used in the `itype` annotations. -/
inductive CheckedPtr
  | _Nt_array_ptr
  | _Ptr
  deriving DecidableEq, Repr

/-- A bounds-safe interface type: `itype([restrict] K<[const] base>)`. -/
structure IType where
  is_restrict : Bool
  kind : CheckedPtr
  is_const : Bool
  base : BaseTy
  deriving DecidableEq, Repr

/-- One parameter of a declaration: type, name, optional `: itype(...)`. -/
structure Param where
  ty : CTy
  name : String
  itype : Option IType
  deriving DecidableEq, Repr

/-- A declaration `extern ret name(params);`. -/
structure FunDecl where
  ret : BaseTy
  name : String
  params : List Param
  deriving DecidableEq, Repr

/-- One line of a header, as far as conditional inclusion is concerned. -/
inductive Line
  | if_defined (m : MacroId)
  | if_has_include_next (h : Header)
  | ifdef (m : MacroId)
  | ifndef (m : MacroId)
  | endif
  | define (m : MacroId)
  | pragma_checked_scope (op : ScopeOp)
  | include_next (h : Header)
  | decl (d : FunDecl)
  deriving DecidableEq, Repr

/-- A line that survived conditional inclusion. -/
inductive Item
  | define (m : MacroId)
  | pragma_checked_scope (op : ScopeOp)
  | include_next (h : Header)
  | decl (d : FunDecl)
  deriving DecidableEq, Repr

/-! ## The declarations of lines 29 to 35 -/

/-- The type `const char *`. -/
def const_char_ptr : CTy := ⟨true, .char, true, false⟩

/-- The type `const char *restrict`. -/
def const_char_ptr_restrict : CTy := ⟨true, .char, true, true⟩

/-- The type `struct stat *`. -/
def struct_stat_ptr : CTy := ⟨false, .struct_stat, true, false⟩

/-- The type `struct stat *restrict`. -/
def struct_stat_ptr_restrict : CTy := ⟨false, .struct_stat, true, true⟩

/-- The type `mode_t`. -/
def mode_t_ty : CTy := ⟨false, .mode_t, false, false⟩

/-- The type `int`. -/
def int_ty : CTy := ⟨false, .int, false, false⟩

/-- Line 29:
`extern int mkdir(const char *pathname : itype(_Nt_array_ptr<const char>), mode_t mode);` -/
def mkdir : FunDecl :=
  { ret := .int, name := "mkdir",
    params := [⟨const_char_ptr, "pathname", some ⟨false, ._Nt_array_ptr, true, .char⟩⟩,
               ⟨mode_t_ty, "mode", none⟩] }

/-- Line 30:
`extern int chmod(const char *pathname : itype(_Nt_array_ptr<const char>), mode_t mode);` -/
def chmod : FunDecl :=
  { ret := .int, name := "chmod",
    params := [⟨const_char_ptr, "pathname", some ⟨false, ._Nt_array_ptr, true, .char⟩⟩,
               ⟨mode_t_ty, "mode", none⟩] }

/-- Line 31: `extern int fstat(int fd, struct stat *buf : itype(_Ptr<struct stat>));` -/
def fstat : FunDecl :=
  { ret := .int, name := "fstat",
    params := [⟨int_ty, "fd", none⟩,
               ⟨struct_stat_ptr, "buf", some ⟨false, ._Ptr, false, .struct_stat⟩⟩] }

/-- Lines 32-33:
`extern int lstat(const char *restrict file : itype(restrict _Nt_array_ptr<const char>),
struct stat *restrict buf : itype(restrict _Ptr<struct stat>));` -/
def lstat : FunDecl :=
  { ret := .int, name := "lstat",
    params := [⟨const_char_ptr_restrict, "file", some ⟨true, ._Nt_array_ptr, true, .char⟩⟩,
               ⟨struct_stat_ptr_restrict, "buf", some ⟨true, ._Ptr, false, .struct_stat⟩⟩] }

/-- Lines 34-35:
`extern int stat(const char *restrict file : itype(restrict _Nt_array_ptr<const char>),
struct stat *restrict buf : itype(restrict _Ptr<struct stat>));` -/
def stat : FunDecl :=
  { ret := .int, name := "stat",
    params := [⟨const_char_ptr_restrict, "file", some ⟨true, ._Nt_array_ptr, true, .char⟩⟩,
               ⟨struct_stat_ptr_restrict, "buf", some ⟨true, ._Ptr, false, .struct_stat⟩⟩] }

/-! ## The header -/

/-- The lines 8 to 45 of `include/sys/stat_checked.h`, in order (lines 1 to 7
and 37 are comments, the others left out are blank). -/
def stat_checked_h : List Line :=
  [ .if_defined .__has_include_next,        -- 8
    .if_has_include_next .sys_stat_h,       -- 9
    .ifdef .__checkedc,                     -- 11
    .pragma_checked_scope .push,            -- 12
    .pragma_checked_scope .off,             -- 13
    .endif,                                 -- 14
    .include_next .sys_stat_h,              -- 16
    .ifdef .__checkedc,                     -- 18
    .pragma_checked_scope .pop,             -- 19
    .endif,                                 -- 20
    .ifdef .__checkedc,                     -- 22
    .ifndef .__STAT_CHECKED_H,              -- 23
    .define .__STAT_CHECKED_H,              -- 24
    .pragma_checked_scope .push,            -- 26
    .pragma_checked_scope .on,              -- 27
    .decl mkdir,                            -- 29
    .decl chmod,                            -- 30
    .decl fstat,                            -- 31
    .decl lstat,                            -- 32-33
    .decl stat,                             -- 34-35
    .pragma_checked_scope .pop,             -- 39
    .endif,                                 -- 41
    .endif,                                 -- 42
    .endif,                                 -- 44
    .endif ]                                -- 45

/-! ## Conditional inclusion -/

/-- What can go wrong while a file is preprocessed. -/
inductive PPError
  | unbalanced_endif
  | unterminated_conditional
  | has_include_next_undefined
  | file_not_found (h : Header)
  deriving DecidableEq, Repr

/-- The state of the preprocessor inside a translation unit: the defined
names, the open conditional groups (innermost first, `true` when the group is
being included) and the lines kept so far. -/
structure PPState where
  defined : List MacroId
  conds : List Bool
  out : List Item
  deriving DecidableEq, Repr

/-- Whether the current position is included: every open group is. -/
def PPState.active (s : PPState) : Bool := s.conds.all id

/-- Opens a conditional group whose controlling condition has the value `b`. -/
def PPState.open_group (s : PPState) (b : Bool) : PPState :=
  { s with conds := b :: s.conds }

/-- Appends a kept line. -/
def PPState.emit (s : PPState) (i : Item) : PPState :=
  { s with out := s.out ++ [i] }

/-- Processes one line.  `found h` tells whether the search of
`#include_next <h>` finds a file.  In a skipped group only the nesting of the
conditionals is tracked: conditions are not evaluated and nothing is kept.
`__has_include_next(<h>)` is an error where `__has_include_next` is not
defined, and so is `#include_next <h>` where no file is found.  The contents
of an included system header are not part of this development: the inclusion
is recorded as one kept line, and the system header is taken to leave the
three names of `MacroId` alone. -/
def step (found : Header → Bool) (s : PPState) : Line → Except PPError PPState
  | .if_defined m =>
      if s.active then .ok (s.open_group (s.defined.contains m))
      else .ok (s.open_group false)
  | .ifdef m =>
      if s.active then .ok (s.open_group (s.defined.contains m))
      else .ok (s.open_group false)
  | .ifndef m =>
      if s.active then .ok (s.open_group (!s.defined.contains m))
      else .ok (s.open_group false)
  | .if_has_include_next h =>
      if s.active then
        if s.defined.contains .__has_include_next then .ok (s.open_group (found h))
        else .error .has_include_next_undefined
      else .ok (s.open_group false)
  | .endif =>
      match s.conds with
      | [] => .error .unbalanced_endif
      | _ :: rest => .ok { s with conds := rest }
  | .define m =>
      if s.active then .ok ({ s with defined := m :: s.defined }.emit (.define m))
      else .ok s
  | .pragma_checked_scope op =>
      if s.active then .ok (s.emit (.pragma_checked_scope op)) else .ok s
  | .include_next h =>
      if s.active then
        if found h then .ok (s.emit (.include_next h)) else .error (.file_not_found h)
      else .ok s
  | .decl d =>
      if s.active then .ok (s.emit (.decl d)) else .ok s

/-- Processes the lines of a file in order, stopping at the first error. -/
def run (found : Header → Bool) : PPState → List Line → Except PPError PPState
  | s, [] => .ok s
  | s, l :: ls =>
      match step found s l with
      | .error e => .error e
      | .ok s1 => run found s1 ls

/-- The state of a translation unit between two files: the defined names and
the lines kept so far. -/
structure TU where
  defined : List MacroId
  out : List Item
  deriving DecidableEq, Repr

/-- Includes the file `lines` at the current point of a translation unit.
Every conditional of the file has to be closed at its end. -/
def include_file (found : Header → Bool) (lines : List Line) (tu : TU) :
    Except PPError TU :=
  match run found ⟨tu.defined, [], tu.out⟩ lines with
  | .error e => .error e
  | .ok s =>
      match s.conds with
      | [] => .ok ⟨s.defined, s.out⟩
      | _ :: _ => .error .unterminated_conditional

/-- Includes the file `lines` `n` times in a row. -/
def include_times (found : Header → Bool) (lines : List Line) : Nat → TU → Except PPError TU
  | 0, tu => .ok tu
  | n + 1, tu =>
      match include_file found lines tu with
      | .error e => .error e
      | .ok tu1 => include_times found lines n tu1

/-! ## Configurations -/

/-- The configuration in which the header is included: is
`__has_include_next` defined, does the search find `<sys/stat.h>`, is
`__checkedc` defined, is `__STAT_CHECKED_H` already defined. -/
structure Config where
  has_include_next : Bool
  sys_stat_found : Bool
  checkedc : Bool
  stat_checked_h : Bool
  deriving DecidableEq, Repr

/-- The table of defined names of a configuration. -/
def Config.defined (c : Config) : List MacroId :=
  (if c.has_include_next then [MacroId.__has_include_next] else []) ++
  (if c.checkedc then [MacroId.__checkedc] else []) ++
  (if c.stat_checked_h then [MacroId.__STAT_CHECKED_H] else [])

/-- The header search of a configuration. -/
def Config.found (c : Config) : Header → Bool
  | .sys_stat_h => c.sys_stat_found

/-- The translation unit at the point of inclusion: nothing kept yet. -/
def Config.tu (c : Config) : TU := ⟨c.defined, []⟩

/-- One inclusion of `stat_checked.h` in the configuration `c`. -/
def include_stat_checked (c : Config) : Except PPError TU :=
  include_file c.found stat_checked_h c.tu

/-- The system header is available to `stat_checked.h`: the feature test of
lines 8 and 9 succeeds. -/
def Config.available (c : Config) : Bool := c.has_include_next && c.sys_stat_found

/-! ## Observations on the kept lines -/

/-- The declarations among the kept lines, in order. -/
def decls : List Item → List FunDecl
  | [] => []
  | .decl d :: is => d :: decls is
  | _ :: is => decls is

/-- The `CHECKED_SCOPE` pragmas among the kept lines, in order. -/
def pragmas : List Item → List ScopeOp
  | [] => []
  | .pragma_checked_scope op :: is => op :: pragmas is
  | _ :: is => pragmas is

/-- The names defined by the kept lines, in order. -/
def defines : List Item → List MacroId
  | [] => []
  | .define m :: is => m :: defines is
  | _ :: is => defines is

/-- The headers included by the kept lines, in order. -/
def includes : List Item → List Header
  | [] => []
  | .include_next h :: is => h :: includes is
  | _ :: is => includes is

/-- The file that consists of the one line `#include_next <sys/stat.h>`:
including the plain system header alone. -/
def plain_system_header : List Line := [.include_next .sys_stat_h]

/-! ## Checked scopes -/

/-- The checked-scope mode in force at a point of a translation unit. -/
inductive ScopeMode
  | on
  | off
  deriving DecidableEq, Repr

/-- The checked-scope state: the modes saved by `push`, innermost first, and
the mode in force. -/
structure ScopeState where
  stack : List ScopeMode
  cur : ScopeMode
  deriving DecidableEq, Repr

/-- Modelled from the spec: the effect of `#pragma CHECKED_SCOPE` (the
compiler that interprets the pragma is not part of the sources).  `push` saves
the mode in force, `pop` restores the mode saved last and is refused when
nothing is saved, `on` and `off` set the mode in force. -/
def ScopeState.apply (s : ScopeState) : ScopeOp → Option ScopeState
  | .push => some ⟨s.cur :: s.stack, s.cur⟩
  | .pop =>
      match s.stack with
      | [] => none
      | m :: rest => some ⟨rest, m⟩
  | .on => some ⟨s.stack, .on⟩
  | .off => some ⟨s.stack, .off⟩

/-- Applies a sequence of pragmas in order. -/
def run_pragmas : ScopeState → List ScopeOp → Option ScopeState
  | s, [] => some s
  | s, op :: ops =>
      match s.apply op with
      | none => none
      | some s1 => run_pragmas s1 ops

/-- Walks the kept lines from the scope state `s` and records, for every
inclusion and every declaration, the mode in force where it stands; the
second component is the scope state at the end. -/
def scope_trace : ScopeState → List Item → Option (List (Item × ScopeMode) × ScopeState)
  | s, [] => some ([], s)
  | s, .pragma_checked_scope op :: is =>
      match s.apply op with
      | none => none
      | some s1 => scope_trace s1 is
  | s, .define _ :: is => scope_trace s is
  | s, .include_next h :: is =>
      match scope_trace s is with
      | none => none
      | some (t, s1) => some ((.include_next h, s.cur) :: t, s1)
  | s, .decl d :: is =>
      match scope_trace s is with
      | none => none
      | some (t, s1) => some ((.decl d, s.cur) :: t, s1)

/-! ## One inclusion from an arbitrary point of a translation unit -/

/-- The lines the header keeps when the system header is available, written
out to state what `include_file` computes (`include_file_available`): `chk`
tells whether `__checkedc` is defined, `seen` whether `__STAT_CHECKED_H` is. -/
def kept_lines (chk seen : Bool) : List Item :=
  (if chk then [.pragma_checked_scope .push, .pragma_checked_scope .off] else []) ++
  [.include_next .sys_stat_h] ++
  (if chk then [.pragma_checked_scope .pop] else []) ++
  (if chk && !seen then
    [.define .__STAT_CHECKED_H, .pragma_checked_scope .push, .pragma_checked_scope .on,
     .decl mkdir, .decl chmod, .decl fstat, .decl lstat, .decl stat,
     .pragma_checked_scope .pop]
   else [])

/-- Without the capability the header is skipped as a whole, from any point
of a translation unit. -/
theorem include_file_unavailable (found : Header → Bool) (tu : TU)
    (h : (tu.defined.contains .__has_include_next && found .sys_stat_h) = false) :
    include_file found stat_checked_h tu = .ok tu := by
  by_cases h1 : MacroId.__has_include_next ∈ tu.defined
  · have h2 : found .sys_stat_h = false := by simpa [h1] using h
    simp [include_file, stat_checked_h, run, step, PPState.active, PPState.open_group,
      PPState.emit, h1, h2]
  · simp [include_file, stat_checked_h, run, step, PPState.active, PPState.open_group,
      PPState.emit, h1]

/-- With the capability the header keeps `kept_lines`, and defines
`__STAT_CHECKED_H` when it keeps the declarations. -/
theorem include_file_available (found : Header → Bool) (tu : TU)
    (h1 : tu.defined.contains .__has_include_next = true) (h2 : found .sys_stat_h = true) :
    include_file found stat_checked_h tu =
      .ok ⟨if tu.defined.contains .__checkedc && !tu.defined.contains .__STAT_CHECKED_H
             then .__STAT_CHECKED_H :: tu.defined else tu.defined,
           tu.out ++ kept_lines (tu.defined.contains .__checkedc)
             (tu.defined.contains .__STAT_CHECKED_H)⟩ := by
  have h1m : MacroId.__has_include_next ∈ tu.defined := by simpa using h1
  by_cases h3 : MacroId.__checkedc ∈ tu.defined <;>
  by_cases h4 : MacroId.__STAT_CHECKED_H ∈ tu.defined <;>
  simp [include_file, stat_checked_h, run, step, PPState.active, PPState.open_group,
    PPState.emit, kept_lines, h1m, h2, h3, h4]

/-! ## Single inclusion -/

/-- C1. For every configuration in which `__checkedc` is not defined, one
inclusion of `stat_checked.h` succeeds and keeps no declaration, no
`CHECKED_SCOPE` pragma and no definition (the table of defined names is the
one before the inclusion); whenever the system header is available the result
is exactly the result of including the file that holds the single line
`#include_next <sys/stat.h>`. -/
theorem unchecked_inclusion_is_plain_system_header (c : Config)
    (h : c.checkedc = false) :
    ∃ tu, include_stat_checked c = .ok tu ∧
      decls tu.out = [] ∧ pragmas tu.out = [] ∧ defines tu.out = [] ∧
      tu.defined = c.defined ∧
      (c.available = true →
        include_file c.found plain_system_header c.tu = .ok tu ∧
        tu.out = [.include_next .sys_stat_h]) := by
  rcases c with ⟨a, b, k, d⟩
  cases h
  cases a <;> cases b <;> cases d <;>
    exact ⟨_, rfl, rfl, rfl, rfl, rfl,
      fun ha => by first | exact ⟨rfl, rfl⟩ | exact absurd ha (by decide)⟩

/-- Without `__checkedc`, with the system header available, the only kept line
is the inclusion of the system header. -/
theorem unchecked_inclusion_is_plain_system_header_witness :
    ∃ tu, include_stat_checked ⟨true, true, false, false⟩ = .ok tu ∧
      tu.out = [.include_next .sys_stat_h] := by
  obtain ⟨tu, h1, _, _, _, _, h2⟩ :=
    unchecked_inclusion_is_plain_system_header ⟨true, true, false, false⟩ rfl
  exact ⟨tu, h1, (h2 rfl).2⟩

/-- C3. For every configuration in which `__has_include_next` is not defined
or `__has_include_next(<sys/stat.h>)` is false, whether or not `__checkedc`
is defined, one inclusion of `stat_checked.h` succeeds (no error) and is a
no-op: no line is kept (no inclusion, no declaration, no pragma, no
definition) and the table of defined names is unchanged, so that
`__STAT_CHECKED_H` is defined afterwards only if it was before; whatever was
kept before the inclusion is left as it is. -/
theorem inclusion_is_noop_without_capability (c : Config)
    (h : c.has_include_next = false ∨ c.sys_stat_found = false) :
    ∃ tu, include_stat_checked c = .ok tu ∧
      tu.out = [] ∧ includes tu.out = [] ∧ decls tu.out = [] ∧
      pragmas tu.out = [] ∧ defines tu.out = [] ∧
      tu.defined = c.defined ∧
      (tu.defined.contains .__STAT_CHECKED_H = c.stat_checked_h) ∧
      (∀ prior : List Item,
        include_file c.found stat_checked_h ⟨c.defined, prior⟩ = .ok ⟨c.defined, prior⟩) := by
  have hg : ∀ prior : List Item,
      include_file c.found stat_checked_h ⟨c.defined, prior⟩ = .ok ⟨c.defined, prior⟩ := by
    intro prior
    apply include_file_unavailable
    rcases c with ⟨a, b, k, d⟩
    cases a <;> cases b <;> cases k <;> cases d <;>
      first
      | rfl
      | exact absurd h (by decide)
  rcases c with ⟨a, b, k, d⟩
  cases a <;> cases b <;> cases k <;> cases d <;>
    first
    | exact ⟨_, rfl, rfl, rfl, rfl, rfl, rfl, rfl, rfl, hg⟩
    | exact absurd h (by decide)

/-- With `__has_include_next` undefined nothing is kept, even where the file
`<sys/stat.h>` exists and `__checkedc` is defined. -/
theorem inclusion_is_noop_without_capability_witness :
    ∃ tu, include_stat_checked ⟨false, true, true, false⟩ = .ok tu ∧ tu.out = [] := by
  obtain ⟨tu, h1, h2, _⟩ :=
    inclusion_is_noop_without_capability ⟨false, true, true, false⟩ (Or.inl rfl)
  exact ⟨tu, h1, h2⟩

/-- C4, amended. In every configuration in which `__has_include_next` is
defined and finds `<sys/stat.h>` (that the file exists is not enough:
without `__has_include_next` line 8 skips the whole header), whether or not
`__checkedc` and `__STAT_CHECKED_H` are defined and whatever was kept before,
one inclusion of `stat_checked.h` succeeds, keeps everything that was kept
before, includes the system `<sys/stat.h>` exactly once, adds declarations of
`mkdir`, `chmod`, `fstat`, `lstat` and `stat` only, defines no name other
than `__STAT_CHECKED_H` and leaves every defined name defined. -/
theorem system_header_forwarded (c : Config) (prior : List Item)
    (h : c.available = true) :
    ∃ tu added, include_file c.found stat_checked_h ⟨c.defined, prior⟩ = .ok tu ∧
      tu.out = prior ++ added ∧
      Item.include_next .sys_stat_h ∈ added ∧
      includes added = [.sys_stat_h] ∧
      (∀ d ∈ decls added, d ∈ [mkdir, chmod, fstat, lstat, stat]) ∧
      (∀ d ∈ decls added, d.name ∈ ["mkdir", "chmod", "fstat", "lstat", "stat"]) ∧
      (∀ m ∈ defines added, m = .__STAT_CHECKED_H) ∧
      (∀ m ∈ c.defined, m ∈ tu.defined) := by
  rcases c with ⟨a, b, k, d⟩
  simp only [Config.available, Bool.and_eq_true] at h
  obtain ⟨rfl, rfl⟩ := h
  have hf := include_file_available (Config.found ⟨true, true, k, d⟩)
    ⟨Config.defined ⟨true, true, k, d⟩, prior⟩ rfl rfl
  refine ⟨_, kept_lines k d, hf, ?_⟩
  cases k <;> cases d <;>
    exact ⟨rfl, by decide, rfl, by decide, by decide, by decide,
      by simp [Config.defined]⟩

/-- A second inclusion under `__checkedc` still forwards to the system header
and keeps what was kept before. -/
theorem system_header_forwarded_witness :
    ∃ tu added, include_file (Config.found ⟨true, true, true, true⟩) stat_checked_h
        ⟨Config.defined ⟨true, true, true, true⟩, [.decl mkdir]⟩ = .ok tu ∧
      tu.out = [.decl mkdir] ++ added ∧ includes added = [.sys_stat_h] := by
  obtain ⟨tu, added, h1, h2, _, h3, _⟩ :=
    system_header_forwarded ⟨true, true, true, true⟩ [.decl mkdir] rfl
  exact ⟨tu, added, h1, h2, h3⟩

/-- C4 as worded fails: in the configuration where `<sys/stat.h>` exists,
`__has_include_next` is not defined and neither `__checkedc` nor
`__STAT_CHECKED_H` is, line 8 skips the whole file, nothing is kept and the
system header is not included; so it is not true that every configuration in
which `<sys/stat.h>` exists includes it. -/
theorem system_header_skipped_without_has_include_next :
    Config.sys_stat_found ⟨false, true, false, false⟩ = true ∧
    include_stat_checked ⟨false, true, false, false⟩ = .ok ⟨[], []⟩ ∧
    ¬ (∀ c : Config, c.sys_stat_found = true →
        ∃ tu, include_stat_checked c = .ok tu ∧
          Item.include_next .sys_stat_h ∈ tu.out) := by
  refine ⟨rfl, rfl, fun hall => ?_⟩
  obtain ⟨tu, h1, h2⟩ := hall ⟨false, true, false, false⟩ rfl
  have h3 : (Except.ok tu : Except PPError TU) = .ok ⟨[], []⟩ := h1.symm.trans rfl
  cases h3
  simp at h2

/-- C5. When the declarations are kept (the system header is available,
`__checkedc` is defined and `__STAT_CHECKED_H` is not), they are exactly
`mkdir`, `chmod`, `fstat`, `lstat`, `stat` in this order (`fchmod` and
`umask` are not declared); each returns `int`; `mkdir` and `chmod` take
`(const char *pathname, mode_t mode)`, `fstat` takes
`(int fd, struct stat *buf)`, `lstat` and `stat` take
`(const char *restrict file, struct stat *restrict buf)`; every
`const char *` parameter has the interface type `_Nt_array_ptr<const char>`,
every `struct stat *` parameter the interface type `_Ptr<struct stat>`
(restrict-qualified exactly when the parameter is), and the parameters that
are not pointers have no interface type. -/
theorem declaration_surface (c : Config) (ha : c.available = true)
    (hc : c.checkedc = true) (hs : c.stat_checked_h = false) :
    ∃ tu, include_stat_checked c = .ok tu ∧
      (decls tu.out).map (fun d => d.name) = ["mkdir", "chmod", "fstat", "lstat", "stat"] ∧
      (∀ d ∈ decls tu.out, d.name ≠ "fchmod" ∧ d.name ≠ "umask") ∧
      (∀ d ∈ decls tu.out, d.ret = .int) ∧
      (decls tu.out).map (fun d => d.params.map (fun p => (p.ty, p.name))) =
        [ [(⟨true, .char, true, false⟩, "pathname"), (⟨false, .mode_t, false, false⟩, "mode")],
          [(⟨true, .char, true, false⟩, "pathname"), (⟨false, .mode_t, false, false⟩, "mode")],
          [(⟨false, .int, false, false⟩, "fd"), (⟨false, .struct_stat, true, false⟩, "buf")],
          [(⟨true, .char, true, true⟩, "file"), (⟨false, .struct_stat, true, true⟩, "buf")],
          [(⟨true, .char, true, true⟩, "file"), (⟨false, .struct_stat, true, true⟩, "buf")] ] ∧
      (∀ d ∈ decls tu.out, ∀ p ∈ d.params,
        p.ty.is_pointer = true → p.ty.base = .char →
          p.ty.is_const = true ∧
          p.itype = some ⟨p.ty.is_restrict, ._Nt_array_ptr, true, .char⟩) ∧
      (∀ d ∈ decls tu.out, ∀ p ∈ d.params,
        p.ty.is_pointer = true → p.ty.base = .struct_stat →
          p.itype = some ⟨p.ty.is_restrict, ._Ptr, false, .struct_stat⟩) ∧
      (∀ d ∈ decls tu.out, ∀ p ∈ d.params,
        p.ty.is_pointer = false → p.itype = none) := by
  rcases c with ⟨a, b, k, d⟩
  simp only [Config.available, Bool.and_eq_true] at ha
  obtain ⟨rfl, rfl⟩ := ha
  cases hc
  cases hs
  exact ⟨_, rfl, rfl, by decide, by decide, rfl, by decide, by decide, by decide⟩

/-- The names declared by a first inclusion under `__checkedc`. -/
theorem declaration_surface_witness :
    ∃ tu, include_stat_checked ⟨true, true, true, false⟩ = .ok tu ∧
      (decls tu.out).map (fun d => d.name) = ["mkdir", "chmod", "fstat", "lstat", "stat"] := by
  obtain ⟨tu, h1, h2, _⟩ := declaration_surface ⟨true, true, true, false⟩ rfl rfl rfl
  exact ⟨tu, h1, h2⟩

/-- The conjunction of the conditions of a list does not depend on their
order. -/
theorem all_id_of_perm (p : List Bool) (x y z : Bool) (hp : p.Perm [x, y, z]) :
    p.all id = (x && y && z) := by
  rw [Bool.eq_iff_iff]
  simp [List.all_eq_true, hp.mem_iff, and_assoc]

/-- C7. One inclusion keeps the five declarations if and only if the system
header capability is present (`__has_include_next` defined and `<sys/stat.h>`
found), `__checkedc` is defined and `__STAT_CHECKED_H` is not, and keeps no
declaration otherwise; the conjunction may be taken over the three
conditions in any order; two configurations that agree on the three
conditions keep the same lines; after the inclusion `__STAT_CHECKED_H` is
defined if and only if it was defined before or the capability is present
and `__checkedc` is defined. -/
theorem declarations_emitted_iff (c c' : Config) :
    ∃ tu, include_stat_checked c = .ok tu ∧
      (decls tu.out = [mkdir, chmod, fstat, lstat, stat] ↔
        (c.has_include_next = true ∧ c.sys_stat_found = true) ∧
          c.checkedc = true ∧ c.stat_checked_h = false) ∧
      (decls tu.out = [] ↔
        ¬ ((c.has_include_next = true ∧ c.sys_stat_found = true) ∧
          c.checkedc = true ∧ c.stat_checked_h = false)) ∧
      (∀ p : List Bool, p.Perm [c.available, c.checkedc, !c.stat_checked_h] →
        (decls tu.out = [mkdir, chmod, fstat, lstat, stat] ↔ p.all id = true)) ∧
      (c'.available = c.available → c'.checkedc = c.checkedc →
        c'.stat_checked_h = c.stat_checked_h →
        ∃ tu', include_stat_checked c' = .ok tu' ∧ tu'.out = tu.out) ∧
      (tu.defined.contains .__STAT_CHECKED_H = true ↔
        c.stat_checked_h = true ∨
          ((c.has_include_next = true ∧ c.sys_stat_found = true) ∧ c.checkedc = true)) := by
  rcases c with ⟨a, b, k, d⟩
  rcases c' with ⟨a', b', k', d'⟩
  cases a <;> cases b <;> cases k <;> cases d <;>
    refine ⟨_, rfl, by decide, by decide, ?_, ?_, by decide⟩ <;>
    first
    | (intro p hp
       rw [all_id_of_perm p _ _ _ hp]
       decide)
    | (intro h1 h2 h3
       cases h2
       cases h3
       cases a' <;> cases b' <;>
         first
         | exact ⟨_, rfl, rfl⟩
         | exact absurd h1 (by decide))

/-- Two configurations without the capability, for different reasons, keep
the same lines: none. -/
theorem declarations_emitted_iff_witness :
    ∃ tu, include_stat_checked ⟨false, true, true, false⟩ = .ok tu ∧ tu.out = [] := by
  obtain ⟨tu, h1, _, _, _, h2, _⟩ :=
    declarations_emitted_iff ⟨true, false, true, false⟩ ⟨false, true, true, false⟩
  obtain ⟨tu', h3, h4⟩ := h2 rfl rfl rfl
  refine ⟨tu', h3, ?_⟩
  rw [h4]
  have : Except.ok tu = (Except.ok ⟨[.__has_include_next, .__checkedc], []⟩ : Except PPError TU) :=
    h1.symm.trans rfl
  cases this
  rfl

/-! ## Checked scopes of the kept lines -/

/-- A property of every prefix of a list holds as soon as it holds for the
prefixes no longer than the list. -/
theorem forall_take_of_le_length {α : Type} (l : List α) (P : List α → Prop)
    (h : ∀ k, k ≤ l.length → P (l.take k)) : ∀ k, P (l.take k) := by
  intro k
  rcases Nat.le_total k l.length with hk | hk
  · exact h k hk
  · rw [List.take_of_length_le hk]
    simpa using h l.length (Nat.le_refl _)

/-- C8. In every configuration in which `__checkedc` is defined and the
system header is available, and from every checked-scope state at the point
of inclusion, the kept lines are accepted by the scope pragmas; the system
`<sys/stat.h>` is included with the checked scope off; the five declarations,
when they are kept, stand after that inclusion, in the order of the file, with
the checked scope on; no declaration stands in an unchecked scope and no
inclusion in a checked scope. -/
theorem scopes_of_inclusion_and_declarations (c : Config) (s : ScopeState)
    (hc : c.checkedc = true) (ha : c.available = true) :
    ∃ tu tr s1, include_stat_checked c = .ok tu ∧
      scope_trace s tu.out = some (tr, s1) ∧
      tr = (Item.include_next .sys_stat_h, ScopeMode.off) ::
        (if c.stat_checked_h then []
         else [(.decl mkdir, .on), (.decl chmod, .on), (.decl fstat, .on),
               (.decl lstat, .on), (.decl stat, .on)]) ∧
      (Item.include_next .sys_stat_h, ScopeMode.off) ∈ tr ∧
      (∀ h m, (Item.include_next h, m) ∈ tr → m = .off) ∧
      (∀ d m, (Item.decl d, m) ∈ tr → m = .on) := by
  rcases c with ⟨a, b, k, d⟩
  rcases s with ⟨st, m⟩
  simp only [Config.available, Bool.and_eq_true] at ha
  obtain ⟨rfl, rfl⟩ := ha
  cases hc
  cases d
  · refine ⟨_, _, _, rfl, rfl, rfl, ?_, ?_, ?_⟩
    · simp
    · intro h m hm
      simp at hm
      exact hm
    · intro d m hm
      simp at hm
      rcases hm with hm | hm | hm | hm | hm <;> exact hm.2
  · refine ⟨_, _, _, rfl, rfl, rfl, ?_, ?_, ?_⟩
    · simp
    · intro h m hm
      simp at hm
      exact hm
    · intro d m hm
      simp at hm

/-- From a checked scope with one saved mode, the system header is still
included with the checked scope off. -/
theorem scopes_of_inclusion_and_declarations_witness :
    ∃ tu tr s1, include_stat_checked ⟨true, true, true, false⟩ = .ok tu ∧
      scope_trace ⟨[.off], .on⟩ tu.out = some (tr, s1) ∧
      (Item.include_next .sys_stat_h, ScopeMode.off) ∈ tr := by
  obtain ⟨tu, tr, s1, h1, h2, _, h3, _⟩ :=
    scopes_of_inclusion_and_declarations ⟨true, true, true, false⟩ ⟨[.off], .on⟩ rfl rfl
  exact ⟨tu, tr, s1, h1, h2, h3⟩

/-- C9. For every configuration and every initial stack and mode, one
inclusion of `stat_checked.h` succeeds and its `CHECKED_SCOPE` pragmas, run
from that state, are all accepted and end in the initial stack and mode; the
kept pragmas hold as many `push` as `pop`, and in every prefix of them there
are at most as many `pop` as `push`, so that no `pop` takes a mode that the
header did not save itself. -/
theorem checked_scope_state_preserved (c : Config) (s : ScopeState) :
    ∃ tu, include_stat_checked c = .ok tu ∧
      run_pragmas s (pragmas tu.out) = some s ∧
      (pragmas tu.out).count .push = (pragmas tu.out).count .pop ∧
      (∀ k, ((pragmas tu.out).take k).count .pop ≤ ((pragmas tu.out).take k).count .push) ∧
      (∃ tr, scope_trace s tu.out = some (tr, s)) := by
  rcases c with ⟨a, b, k, d⟩
  rcases s with ⟨st, m⟩
  cases a <;> cases b <;> cases k <;> cases d <;>
    refine ⟨_, rfl, rfl, rfl, ?_, ⟨_, rfl⟩⟩ <;>
    exact forall_take_of_le_length _
      (fun l => l.count ScopeOp.pop ≤ l.count ScopeOp.push) (by decide)

/-! ## Repeated inclusion -/

/-- The declarations of two runs of kept lines. -/
theorem decls_append (xs ys : List Item) : decls (xs ++ ys) = decls xs ++ decls ys := by
  induction xs with
  | nil => rfl
  | cons x xs ih => cases x <;> simp [decls, ih]

/-- The inclusions of two runs of kept lines. -/
theorem includes_append (xs ys : List Item) :
    includes (xs ++ ys) = includes xs ++ includes ys := by
  induction xs with
  | nil => rfl
  | cons x xs ih => cases x <;> simp [includes, ih]

/-- Once `__STAT_CHECKED_H` is defined, or while `__checkedc` is not, each
further inclusion with the system header available forwards to the system
header once, keeps no declaration and leaves the defined names alone. -/
theorem include_times_guarded (found : Header → Bool) (h2 : found .sys_stat_h = true) :
    ∀ (n : Nat) (tu : TU), tu.defined.contains .__has_include_next = true →
      (tu.defined.contains .__checkedc && !tu.defined.contains .__STAT_CHECKED_H) = false →
      ∃ rest, include_times found stat_checked_h n tu = .ok ⟨tu.defined, tu.out ++ rest⟩ ∧
        decls rest = [] ∧ includes rest = List.replicate n .sys_stat_h := by
  intro n
  induction n with
  | zero =>
      intro tu _ _
      exact ⟨[], by simp [include_times], rfl, rfl⟩
  | succ n ih =>
      intro tu h1 h3
      have hf := include_file_available found tu h1 h2
      rw [h3] at hf
      obtain ⟨rest, hr, hd, hi⟩ := ih ⟨tu.defined, tu.out ++ kept_lines
        (tu.defined.contains .__checkedc) (tu.defined.contains .__STAT_CHECKED_H)⟩ h1 h3
      refine ⟨kept_lines (tu.defined.contains .__checkedc)
        (tu.defined.contains .__STAT_CHECKED_H) ++ rest, ?_, ?_, ?_⟩
      · simp only [include_times, hf]
        simpa [List.append_assoc] using hr
      · rw [decls_append, hd]
        revert h3
        cases tu.defined.contains .__checkedc <;>
          cases tu.defined.contains .__STAT_CHECKED_H <;> simp [kept_lines, decls]
      · rw [includes_append, hi]
        cases tu.defined.contains .__checkedc <;>
          cases tu.defined.contains .__STAT_CHECKED_H <;>
          simp [kept_lines, includes, List.replicate_succ]

/-- The kept lines forward to the system header exactly once. -/
theorem includes_kept_lines (chk seen : Bool) :
    includes (kept_lines chk seen) = [.sys_stat_h] := by
  cases chk <;> cases seen <;> rfl

/-- Any number of inclusions with the system header available: they all
succeed, each forwards to the system header once, and `__has_include_next`
stays defined. -/
theorem include_times_available (found : Header → Bool) (h2 : found .sys_stat_h = true)
    (n : Nat) (tu : TU) (h1 : tu.defined.contains .__has_include_next = true) :
    ∃ tun, include_times found stat_checked_h n tu = .ok tun ∧
      includes tun.out = includes tu.out ++ List.replicate n .sys_stat_h ∧
      tun.defined.contains .__has_include_next = true := by
  cases n with
  | zero => exact ⟨tu, rfl, by simp, h1⟩
  | succ n =>
      have hf := include_file_available found tu h1 h2
      have h1a : (if tu.defined.contains .__checkedc && !tu.defined.contains .__STAT_CHECKED_H
           then .__STAT_CHECKED_H :: tu.defined else tu.defined).contains
             .__has_include_next = true := by
        have h1m : MacroId.__has_include_next ∈ tu.defined := by simpa using h1
        by_cases h3 : MacroId.__checkedc ∈ tu.defined <;>
          by_cases h4 : MacroId.__STAT_CHECKED_H ∈ tu.defined <;> simp [h3, h4, h1m]
      have hg := include_times_guarded found h2 n
        ⟨if tu.defined.contains .__checkedc && !tu.defined.contains .__STAT_CHECKED_H
           then .__STAT_CHECKED_H :: tu.defined else tu.defined,
         tu.out ++ kept_lines (tu.defined.contains .__checkedc)
           (tu.defined.contains .__STAT_CHECKED_H)⟩ h1a
        (by by_cases h3 : MacroId.__checkedc ∈ tu.defined <;>
              by_cases h4 : MacroId.__STAT_CHECKED_H ∈ tu.defined <;> simp [h3, h4])
      obtain ⟨rest, hr, _, hi⟩ := hg
      refine ⟨_, by simp only [include_times, hf]; exact hr, ?_, h1a⟩
      simp only [includes_append, hi, includes_kept_lines]
      simp [List.replicate_succ]

/-- C2. For every `n ≥ 1`, including `stat_checked.h` `n` times in a row with
`__checkedc` defined, the system header available and `__STAT_CHECKED_H`
undefined at the start succeeds; the first inclusion keeps the declarations
`mkdir`, `chmod`, `fstat`, `lstat`, `stat`; the `n - 1` later inclusions keep
no declaration; so the declarations of the `n` inclusions are those of one
inclusion, each of the five exactly once. -/
theorem checked_inclusion_idempotent (c : Config) (n : Nat) (hn : 1 ≤ n)
    (hc : c.checkedc = true) (ha : c.available = true) (hs : c.stat_checked_h = false) :
    ∃ tu1 tun later, include_stat_checked c = .ok tu1 ∧
      include_times c.found stat_checked_h n c.tu = .ok tun ∧
      include_times c.found stat_checked_h (n - 1) tu1 = .ok tun ∧
      decls tu1.out = [mkdir, chmod, fstat, lstat, stat] ∧
      tun.out = tu1.out ++ later ∧ decls later = [] ∧
      decls tun.out = decls tu1.out ∧
      (∀ d ∈ [mkdir, chmod, fstat, lstat, stat], (decls tun.out).count d = 1) := by
  rcases c with ⟨a, b, k, d⟩
  simp only [Config.available, Bool.and_eq_true] at ha
  obtain ⟨rfl, rfl⟩ := ha
  cases hc
  cases hs
  obtain ⟨m, rfl⟩ : ∃ m, n = m + 1 := ⟨n - 1, by omega⟩
  have h1 : include_stat_checked ⟨true, true, true, false⟩ =
      .ok ⟨[.__STAT_CHECKED_H, .__has_include_next, .__checkedc],
        kept_lines true false⟩ := rfl
  obtain ⟨later, hl, hd, _⟩ := include_times_guarded
    (Config.found ⟨true, true, true, false⟩) rfl m
    ⟨[.__STAT_CHECKED_H, .__has_include_next, .__checkedc], kept_lines true false⟩ rfl rfl
  have hdecls : decls (kept_lines true false ++ later) = [mkdir, chmod, fstat, lstat, stat] := by
    rw [decls_append, hd]
    rfl
  refine ⟨_, _, later, h1, ?_, hl, rfl, rfl, hd, ?_, ?_⟩
  · have h0 : include_file (Config.found ⟨true, true, true, false⟩) stat_checked_h
        (Config.tu ⟨true, true, true, false⟩) = .ok ⟨[.__STAT_CHECKED_H,
          .__has_include_next, .__checkedc], kept_lines true false⟩ := rfl
    simp only [include_times, h0]
    exact hl
  · rw [hdecls]
    rfl
  · rw [hdecls]
    decide

/-- Three inclusions in a row declare the five functions once. -/
theorem checked_inclusion_idempotent_witness :
    ∃ tun, include_times (Config.found ⟨true, true, true, false⟩) stat_checked_h 3
        (Config.tu ⟨true, true, true, false⟩) = .ok tun ∧
      decls tun.out = [mkdir, chmod, fstat, lstat, stat] := by
  obtain ⟨tu1, tun, later, h1, h2, _, h3, _, _, h4, _⟩ :=
    checked_inclusion_idempotent ⟨true, true, true, false⟩ 3 (by decide) rfl rfl rfl
  exact ⟨tun, h2, h4.trans h3⟩

/-- C10. `__STAT_CHECKED_H` guards the declarations only.  In every
configuration in which the system header is available, an inclusion with
`__STAT_CHECKED_H` already defined keeps exactly `#include_next <sys/stat.h>`,
between `CHECKED_SCOPE push`, `off` and `pop` when `__checkedc` is defined;
`n` inclusions in a row succeed and forward to the system header `n` times,
and one more inclusion forwards once more. -/
theorem forwarding_not_guarded (c : Config) (n : Nat) (ha : c.available = true) :
    (c.stat_checked_h = true →
      include_stat_checked c = .ok ⟨c.defined,
        if c.checkedc then
          [.pragma_checked_scope .push, .pragma_checked_scope .off,
           .include_next .sys_stat_h, .pragma_checked_scope .pop]
        else [.include_next .sys_stat_h]⟩) ∧
    ∃ tun tun1, include_times c.found stat_checked_h n c.tu = .ok tun ∧
      includes tun.out = List.replicate n .sys_stat_h ∧
      (includes tun.out).length = n ∧
      include_file c.found stat_checked_h tun = .ok tun1 ∧
      includes tun1.out = includes tun.out ++ [.sys_stat_h] := by
  rcases c with ⟨a, b, k, d⟩
  simp only [Config.available, Bool.and_eq_true] at ha
  obtain ⟨rfl, rfl⟩ := ha
  constructor
  · intro hd
    cases hd
    cases k <;> rfl
  · obtain ⟨tun, ht, hi, hh⟩ := include_times_available
      (Config.found ⟨true, true, k, d⟩) rfl n (Config.tu ⟨true, true, k, d⟩)
      (by cases k <;> cases d <;> rfl)
    have hi2 : includes tun.out = List.replicate n .sys_stat_h := by
      rw [hi]
      rfl
    refine ⟨tun, _, ht, hi2, by simp [hi2],
      include_file_available (Config.found ⟨true, true, k, d⟩) tun hh rfl, ?_⟩
    simp only [includes_append, includes_kept_lines]

/-- Two inclusions with `__STAT_CHECKED_H` already defined forward twice. -/
theorem forwarding_not_guarded_witness :
    ∃ tun, include_times (Config.found ⟨true, true, true, true⟩) stat_checked_h 2
        (Config.tu ⟨true, true, true, true⟩) = .ok tun ∧
      includes tun.out = [.sys_stat_h, .sys_stat_h] := by
  obtain ⟨_, tun, _, h1, h2, _⟩ :=
    forwarding_not_guarded ⟨true, true, true, true⟩ 2 rfl
  exact ⟨tun, h1, h2⟩

end StatChecked
